import Mathlib

/-!
Verification of the SMTP email validator server (src/server.js) against its
natural-language specification.  The pure computational core of the program
(class AdvancedSMTPValidator) is shallowly embedded below: the format regex,
the MX-record post-processing, the SMTP probe's socket-event handler, the
address verifier, the statistics aggregator and the batch scheduler.  The
scheduler and the probe are event-driven in the source; they are embedded as
explicit folds over an event / outcome sequence, which is faithful because
every value the claims talk about (verdicts, the results vector, the stats
snapshots) is independent of the completion interleaving inside a group: the
results vector is appended group-by-group after the group barrier, and a
stats snapshot reads exactly that vector.
-/

/-! ### Character classes of the format regex (src/server.js line 57) -/

/-- The class `[a-zA-Z0-9]` of the regex. -/
def isAlnumCh (c : Char) : Bool := c.isAlpha || c.isDigit

/-- The class `[a-zA-Z0-9._%+-]` of the regex (local part). -/
def isLocalCh (c : Char) : Bool :=
  isAlnumCh c || c == '.' || c == '_' || c == '%' || c == '+' || c == '-'

/-- The class `[a-zA-Z0-9.-]` of the regex (domain part). -/
def isDomCh (c : Char) : Bool := isAlnumCh c || c == '.' || c == '-'

/-! ### The format checker, `isValidFormat` (src/server.js lines 56-59)

The source tests the anchored regex
`^[a-zA-Z0-9][a-zA-Z0-9._%+-]{0,63}@[a-zA-Z0-9][a-zA-Z0-9.-]{0,253}\.[a-zA-Z]{2,}$`.
Because `@` is in neither character class, a match must split the string at
its first `@`; because the TLD class `[a-zA-Z]` excludes `.`, the final `\.`
of the pattern must be the last dot of the domain part.  The matcher below
uses exactly these two deterministic splits; `formatSpec` further down gives
the declarative reading (an existential decomposition) and the two are proved
equivalent in the theorem for the corresponding claim. -/

/-- Matches `[a-zA-Z0-9][a-zA-Z0-9.-]{0,253}\.[a-zA-Z]{2,}$` against the part
after the `@`, splitting at the last dot. -/
def domainTail (d : List Char) : Bool :=
  match d with
  | [] => false
  | b :: dr =>
    match dr.reverse.dropWhile (fun c => c != '.') with
    | '.' :: dsrev =>
        isAlnumCh b && decide (dsrev.length ≤ 253) && dsrev.all isDomCh
          && decide (2 ≤ (dr.reverse.takeWhile (fun c => c != '.')).length)
          && (dr.reverse.takeWhile (fun c => c != '.')).all Char.isAlpha
    | _ => false

/-- Matches the whole anchored pattern, splitting at the first `@`. -/
def regexAccept (s : List Char) : Bool :=
  match s with
  | [] => false
  | a :: r =>
    match r.dropWhile (fun c => c != '@') with
    | '@' :: d =>
        isAlnumCh a && decide ((r.takeWhile (fun c => c != '@')).length ≤ 63)
          && (r.takeWhile (fun c => c != '@')).all isLocalCh && domainTail d
    | _ => false

/-- `isValidFormat` from src/server.js lines 56-59. -/
def isValidFormat (email : String) : Bool := regexAccept email.data

/-- The spec's wording of the acceptance rule (spec section 4.1): local part
starts with an alphanumeric, then up to 63 of the local class; domain starts
with an alphanumeric, then up to 253 of the domain class; then a dot and an
alphabetic TLD of length at least 2. -/
def formatSpec (s : List Char) : Prop :=
  ∃ a ls b ds t, s = a :: (ls ++ '@' :: (b :: (ds ++ '.' :: t))) ∧
    isAlnumCh a = true ∧ ls.length ≤ 63 ∧ (∀ c ∈ ls, isLocalCh c = true) ∧
    isAlnumCh b = true ∧ ds.length ≤ 253 ∧ (∀ c ∈ ds, isDomCh c = true) ∧
    2 ≤ t.length ∧ (∀ c ∈ t, c.isAlpha = true)

/-! ### Helper lemmas for the format equivalence -/

theorem takeWhile_mid {α : Type} {p : α → Bool} :
    ∀ (l : List α) (a : α) (r : List α), (∀ c ∈ l, p c = true) → p a = false →
      (l ++ a :: r).takeWhile p = l ∧ (l ++ a :: r).dropWhile p = a :: r := by
  intro l
  induction l with
  | nil =>
    intro a r _ ha
    simp [List.takeWhile, List.dropWhile, ha]
  | cons x xs ih =>
    intro a r hall ha
    have hx : p x = true := hall x (by simp)
    have := ih a r (fun c hc => hall c (by simp [hc])) ha
    simp [List.takeWhile, List.dropWhile, hx, this.1, this.2]

theorem localCh_ne_at {c : Char} (h : isLocalCh c = true) : (c != '@') = true := by
  cases hc : c == '@'
  · simp [bne, hc]
  · exfalso
    have : c = '@' := by simpa [beq_iff_eq] using hc
    subst this
    simp [isLocalCh, isAlnumCh] at h

theorem alphaCh_ne_dot {c : Char} (h : c.isAlpha = true) : (c != '.') = true := by
  cases hc : c == '.'
  · simp [bne, hc]
  · exfalso
    have : c = '.' := by simpa [beq_iff_eq] using hc
    subst this
    simp [Char.isAlpha, Char.isUpper, Char.isLower] at h

theorem domainTail_iff (d : List Char) :
    domainTail d = true ↔
      ∃ b ds t, d = b :: (ds ++ '.' :: t) ∧ isAlnumCh b = true ∧ ds.length ≤ 253 ∧
        (∀ c ∈ ds, isDomCh c = true) ∧ 2 ≤ t.length ∧ (∀ c ∈ t, c.isAlpha = true) := by
  constructor
  · intro h
    match d with
    | [] => simp [domainTail] at h
    | b :: dr =>
      rw [domainTail] at h
      generalize htrev : dr.reverse.takeWhile (fun c => c != '.') = trev at h
      split at h
      case _ dsrev heq =>
        simp only [Bool.and_eq_true, decide_eq_true_eq, List.all_eq_true] at h
        obtain ⟨⟨⟨⟨hb, hlen⟩, hds⟩, htlen⟩, ht⟩ := h
        have hsplit : trev ++ '.' :: dsrev = dr.reverse := by
          rw [← htrev, ← heq]
          exact List.takeWhile_append_dropWhile _ _
        have hdr : dr = dsrev.reverse ++ '.' :: trev.reverse := by
          have h2 := congrArg List.reverse hsplit
          rw [List.reverse_reverse] at h2
          rw [← h2]
          simp
        refine ⟨b, dsrev.reverse, trev.reverse, by rw [hdr], hb, by simpa using hlen,
          ?_, by simpa using htlen, ?_⟩
        · intro x hx
          exact hds x (by simpa using hx)
        · intro x hx
          exact ht x (by simpa using hx)
      case _ =>
        exact absurd h (by simp)
  · rintro ⟨b, ds, t, rfl, hb, hlen, hds, htlen, ht⟩
    rw [domainTail]
    have hrev : (ds ++ '.' :: t).reverse = t.reverse ++ '.' :: ds.reverse := by
      simp
    have hmid := takeWhile_mid (p := fun c => c != '.') t.reverse '.' ds.reverse
      (fun c hc => alphaCh_ne_dot (ht c (by simpa using hc))) (by simp)
    rw [hrev, hmid.2, hmid.1]
    simp only [Bool.and_eq_true, decide_eq_true_eq, List.all_eq_true]
    refine ⟨⟨⟨⟨hb, by simpa using hlen⟩, ?_⟩, by simpa using htlen⟩, ?_⟩
    · intro x hx
      exact hds x (by simpa using hx)
    · intro x hx
      exact ht x (by simpa using hx)

theorem regexAccept_iff (s : List Char) : regexAccept s = true ↔ formatSpec s := by
  constructor
  · intro h
    match s with
    | [] => simp [regexAccept] at h
    | a :: r =>
      rw [regexAccept] at h
      generalize hls : r.takeWhile (fun c => c != '@') = ls at h
      split at h
      case _ d heq =>
        simp only [Bool.and_eq_true, decide_eq_true_eq, List.all_eq_true] at h
        obtain ⟨⟨⟨ha, hlen⟩, hlsall⟩, hdom⟩ := h
        obtain ⟨b, ds, t, hdec, hb, hdslen, hds, htlen, ht⟩ := (domainTail_iff d).mp hdom
        have hsplit : ls ++ '@' :: d = r := by
          rw [← hls, ← heq]
          exact List.takeWhile_append_dropWhile _ _
        refine ⟨a, ls, b, ds, t, ?_, ha, hlen, hlsall, hb, hdslen, hds, htlen, ht⟩
        rw [← hsplit, hdec]
      case _ =>
        exact absurd h (by simp)
  · rintro ⟨a, ls, b, ds, t, rfl, ha, hlen, hls, hb, hdslen, hds, htlen, ht⟩
    rw [regexAccept]
    have hmid := takeWhile_mid (p := fun c => c != '@') ls '@' (b :: (ds ++ '.' :: t))
      (fun c hc => localCh_ne_at (hls c hc)) (by simp)
    rw [hmid.2, hmid.1]
    simp only [Bool.and_eq_true, decide_eq_true_eq, List.all_eq_true]
    exact ⟨⟨⟨ha, hlen⟩, hls⟩, (domainTail_iff _).mpr ⟨b, ds, t, rfl, hb, hdslen, hds, htlen, ht⟩⟩

/-- A local part of exactly 64 characters (1 + 63) followed by a valid domain. -/
def local64 : String := String.mk (List.replicate 64 'a' ++ ('@' :: "ex.com".data))

/-- A local part of 65 characters, one beyond the regex bound. -/
def local65 : String := String.mk (List.replicate 65 'a' ++ ('@' :: "ex.com".data))

/-! ### MX resolution, `getMxRecords` (src/server.js lines 61-72)

`dns.resolveMx` either reports an error (`err` truthy: this covers NXDOMAIN,
no-data answers and transport failures alike) or returns a record list.  The
source resolves the promise with `[]` when `err` is truthy or the list is
missing/empty, and otherwise with the exchanges sorted by ascending priority
(the comparator sort of V8 is stable; `sortByPriority` below is a stable
insertion sort).  The promise is never rejected. -/

/-- One MX record as delivered by the resolver callback. -/
structure MxRecord where
  priority : Nat
  exchange : String
deriving DecidableEq, Repr

/-- The outcome of the `dns.resolveMx` callback for one domain: either an
error object (any failure kind, identified here by its code string) or a
record list. -/
inductive DnsOutcome where
  | failure (code : String)
  | records (addrs : List MxRecord)
deriving DecidableEq, Repr

/-- Stable insertion step: an element is placed after all earlier elements of
equal priority, matching a stable comparator sort. -/
def insertByPriority (x : MxRecord) : List MxRecord → List MxRecord
  | [] => [x]
  | y :: ys => if y.priority ≤ x.priority then y :: insertByPriority x ys else x :: y :: ys

/-- Stable sort by ascending priority. -/
def sortByPriority (l : List MxRecord) : List MxRecord := l.foldr insertByPriority []

/-- `getMxRecords` from src/server.js lines 61-72, as the value the returned
promise resolves with.  It resolves with `[]` on every resolver error and on
an empty answer, and never rejects. -/
def getMxRecords (o : DnsOutcome) : List String :=
  match o with
  | .failure _ => []
  | .records addrs =>
    if addrs.isEmpty then [] else (sortByPriority addrs).map (fun r => r.exchange)

/-! ### The SMTP probe, `checkSmtpServer` (src/server.js lines 140-249)

The probe is a promise driven by socket events and one wall-clock timer.  Its
data handler appends the chunk to `responseBuffer`, splits the buffer on
CRLF, and runs every complete line (all but the last fragment) through one
stateless dispatch chain; the first line that resolves stops the handler.
(The source never trims processed lines from the buffer, so lines of earlier
chunks are re-dispatched on every later chunk; re-dispatching a line can only
repeat a `socket.write`, never change the first resolution.)  A probe run is
embedded as a fold over the finite list of socket events delivered before the
timer fires; if no event resolved the promise, the timer resolves it with
`smtp_timeout` (`checkSmtpServer` below). -/

/-- The object `checkSmtpServer` resolves with. -/
structure SmtpResult where
  isValid : Bool
  message : String
  category : String
deriving DecidableEq, Repr

/-- Leading decimal value of a character list: JavaScript `parseInt` applied
to a short ASCII prefix (optional spaces, optional sign, then decimal digits;
`none` models `NaN`, which fails every comparison in the dispatch chain). -/
def digitsVal (l : List Char) : Option Nat :=
  match l.takeWhile Char.isDigit with
  | [] => none
  | ds => some (ds.foldl (fun a c => 10 * a + (c.toNat - 48)) 0)

/-- `parseInt(line.substring(0, 3))` from src/server.js line 176, on the
three-character prefix already taken by `parseCode`. -/
def parseIntJS (l : List Char) : Option Int :=
  match l.dropWhile (fun c => c == ' ') with
  | '-' :: rest => (digitsVal rest).map (fun n => -(n : Int))
  | '+' :: rest => (digitsVal rest).map (fun n => (n : Int))
  | rest => (digitsVal rest).map (fun n => (n : Int))

/-- The status code of a reply line: `parseInt(line.substring(0, 3))`. -/
def parseCode (line : List Char) : Option Int := parseIntJS (line.take 3)

/-- `p` is a contiguous leading segment of `l`. -/
def hasPrefCh : List Char → List Char → Bool
  | [], _ => true
  | _ :: _, [] => false
  | p :: ps, c :: cs => p == c && hasPrefCh ps cs

/-- JavaScript `line.includes(tok)`: `tok` occurs contiguously in `line`. -/
def containsTok (line tok : List Char) : Bool :=
  match line with
  | [] => tok.isEmpty
  | _ :: rest => hasPrefCh tok line || containsTok rest tok

/-- One step of the per-line dispatch chain of the data handler. -/
inductive LineStep where
  | send (cmd : String)
  | resolve (r : SmtpResult)
  | skip
deriving DecidableEq, Repr

/-- The probe result for a positive `RCPT` reply (src/server.js lines 190-194). -/
def validResult : SmtpResult := ⟨true, "Email существует", "valid"⟩

/-- The probe result for a 550/551 reply (src/server.js lines 199-203). -/
def notExistingResult : SmtpResult := ⟨false, "Email не существует", "not_existing"⟩

/-- The probe result for a 552/553 reply (src/server.js lines 208-212). -/
def mailboxErrorResult : SmtpResult := ⟨false, "Ошибка почтового ящика", "mailbox_error"⟩

/-- The probe result for a 421/450 reply (src/server.js lines 217-221). -/
def temporaryErrorResult : SmtpResult := ⟨false, "Временная ошибка сервера", "temporary_error"⟩

/-- The probe result for an otherwise-unhandled 5xx reply, carrying the
server's line (src/server.js lines 226-230). -/
def smtpErrorResult (line : List Char) : SmtpResult :=
  ⟨false, "Ошибка сервера: " ++ String.mk line, "smtp_error"⟩

/-- The probe result the timeout timer resolves with (src/server.js lines 157-164). -/
def timeoutResult : SmtpResult := ⟨false, "Таймаут подключения", "smtp_timeout"⟩

/-- The probe result of the socket `error` handler (src/server.js lines 236-243). -/
def connectionErrorResult (errMsg : String) : SmtpResult :=
  ⟨false, "Ошибка подключения: " ++ errMsg, "connection_error"⟩

/-- The per-line dispatch chain of the data handler (src/server.js lines
174-233).  Each complete line runs through the same chain regardless of how
far the conversation has advanced: the source keeps no state variable, so the
`HELO`/`MAIL`/`RCPT` token tests are what distinguish the three `250` replies. -/
def handleLine (email : String) (line : List Char) : LineStep :=
  let code := parseCode line
  if hasPrefCh "220".data line then
    .send "HELO email-validator.com\r\n"
  else if hasPrefCh "250".data line && containsTok line "HELO".data then
    .send "MAIL FROM: <check@email-validator.com>\r\n"
  else if hasPrefCh "250".data line && containsTok line "MAIL".data then
    .send ("RCPT TO: <" ++ email ++ ">\r\n")
  else if hasPrefCh "250".data line && containsTok line "RCPT".data then
    .resolve validResult
  else if code == some 550 || code == some 551 then
    .resolve notExistingResult
  else if code == some 552 || code == some 553 then
    .resolve mailboxErrorResult
  else if code == some 421 || code == some 450 then
    .resolve temporaryErrorResult
  else if (code.map (fun c => decide (500 ≤ c) && decide (c ≤ 599))).getD false then
    .resolve (smtpErrorResult line)
  else
    .skip

/-- `responseBuffer.split('\r\n')`: JavaScript split on the two-character
separator (a trailing separator yields a trailing empty fragment, and the
result is never empty). -/
def splitCRLF : List Char → List (List Char)
  | [] => [[]]
  | '\r' :: '\n' :: rest => [] :: splitCRLF rest
  | c :: rest =>
    match splitCRLF rest with
    | [] => [[c]]
    | l :: ls => (c :: l) :: ls

/-- A socket event delivered to the probe before its timer fires. -/
inductive SockEvent where
  | connect
  | dataEv (chunk : List Char)
  | errorEv (errMsg : String)
  | endEv
deriving DecidableEq, Repr

/-- The mutable state of one probe: the read buffer, the log of `socket.write`
calls, and the first resolution if one happened. -/
structure ProbeState where
  buffer : List Char
  sent : List String
  resolved : Option SmtpResult
deriving DecidableEq, Repr

/-- The loop of the data handler over the complete lines of the buffer: the
first resolving line resolves the promise and the handler returns
(src/server.js lines 174-233). -/
def processLines (email : String) : ProbeState → List (List Char) → ProbeState
  | st, [] => st
  | st, line :: rest =>
    match handleLine email line with
    | .send c => processLines email { st with sent := st.sent ++ [c] } rest
    | .skip => processLines email st rest
    | .resolve r => { st with resolved := some r }

/-- One socket event.  After the first resolution the promise is settled and
the socket destroyed, so later events are discarded (spec section 4.3: "Each
probe has exactly one resolution; later events after resolution are
discarded"). -/
def stepEvent (email : String) (st : ProbeState) : SockEvent → ProbeState
  | .connect =>
    if st.resolved.isSome then st else { st with buffer := [] }
  | .dataEv chunk =>
    if st.resolved.isSome then st
    else
      processLines email { st with buffer := st.buffer ++ chunk }
        ((splitCRLF (st.buffer ++ chunk)).dropLast)
  | .errorEv errMsg =>
    if st.resolved.isSome then st else { st with resolved := some (connectionErrorResult errMsg) }
  | .endEv => st

/-- `checkSmtpServer` from src/server.js lines 140-249: the value its promise
resolves with after the given socket events, the timeout timer firing last if
no event resolved it.  The promise is never rejected: `resolve` is the only
settlement in the source. -/
def checkSmtpServer (email : String) (events : List SockEvent) : SmtpResult :=
  (events.foldl (stepEvent email) ⟨[], [], none⟩).resolved.getD timeoutResult

/-! ### The address verifier, `verifyEmail` (src/server.js lines 74-138) -/

/-- One verdict.  `smtpServer` and `mxRecords` model the optional fields of
the `details` object (`none` = absent); the derived `topDomains` list of the
aggregate is the only other source field not modelled (it mixes in a
floating-point percentage and no claim mentions it). -/
structure VerifyResult where
  email : String
  isValid : Bool
  category : String
  message : String
  smtpServer : Option String
  mxRecords : Option (List String)
deriving DecidableEq, Repr

/-- The outcome of `await this.checkSmtpServer(mxHost, email)` for one host:
the resolved result, or a thrown/rejected exception (the `catch` on
src/server.js lines 125-128 skips to the next host). -/
inductive ProbeOutcome where
  | ok (r : SmtpResult)
  | exn (errMsg : String)
deriving DecidableEq, Repr

/-- The `for (const mxHost of mxRecords)` loop of `verifyEmail`
(src/server.js lines 109-129): a valid probe result returns at once with the
host recorded; a non-valid result overwrites `message`, `category` (with
`'smtp_error'` when the probe's category is falsy, modelled by the empty
string) and `details.smtpServer`, and the loop continues; an exception skips
the host. -/
def smtpLoop (probe : String → ProbeOutcome) : List String → VerifyResult → VerifyResult
  | [], r => r
  | host :: rest, r =>
    match probe host with
    | .exn _ => smtpLoop probe rest r
    | .ok s =>
      if s.isValid then
        { r with isValid := true, message := "Email существует", category := "valid",
                 smtpServer := some host }
      else
        smtpLoop probe rest
          { r with message := s.message,
                   category := if s.category = "" then "smtp_error" else s.category,
                   smtpServer := some host }

/-- The last host whose probe produced a result (exceptions skipped), with
that result: what the loop's overwrites leave behind. -/
def lastOk (probe : String → ProbeOutcome) : List String → Option (String × SmtpResult)
  | [] => none
  | host :: rest =>
    match lastOk probe rest with
    | some p => some p
    | none =>
      match probe host with
      | .ok s => some (host, s)
      | .exn _ => none

/-- `verifyEmail` from src/server.js lines 74-138.  `dns` is the resolver
outcome for the address's domain and `probe` the per-host probe outcome.  In
the source a valid probe returns from inside the loop; returning the loop
result through the final `if (!result.message)` check is identical, because
every loop exit that resolved set a non-empty message.  The `catch` around
`getMxRecords` (the `dns_error` verdict, lines 102-106) has no corresponding
branch here because the embedded `getMxRecords` is total, exactly as the
source's promise always resolves. -/
def verifyEmail (dns : DnsOutcome) (probe : String → ProbeOutcome) (email : String) :
    VerifyResult :=
  let base : VerifyResult := ⟨email, false, "invalid", "", none, none⟩
  if isValidFormat email = false then
    { base with message := "Неверный формат email", category := "invalid_format" }
  else
    match getMxRecords dns with
    | [] => { base with message := "MX записи не найдены", category := "no_mx_records" }
    | m :: ms =>
      let r2 := smtpLoop probe (m :: ms) { base with mxRecords := some (m :: ms) }
      if r2.message = "" then
        { r2 with message := "Все SMTP серверы недоступны", category := "smtp_timeout" }
      else r2

/-! ### The statistics aggregator, `analyzeResults` (src/server.js lines 252-308)

JavaScript objects used as maps are embedded as insertion-ordered association
lists with distinct keys: property assignment updates the existing entry in
place or appends a new one.  `topDomains` (lines 298-305) is a derived output
mixing a floating-point percentage; no claim mentions it and it is not
modelled. -/

/-- One `stats.domains[domain]` entry: `{ total, valid, invalid }`. -/
structure DomainStat where
  total : Nat
  valid : Nat
  invalid : Nat
deriving DecidableEq, Repr

/-- The aggregate (src/server.js lines 253-271, without `topDomains`). -/
structure Stats where
  total : Nat
  valid : Nat
  invalid : Nat
  categories : List (String × Nat)
  domains : List (String × DomainStat)
deriving DecidableEq, Repr

/-- Object property read: first (and only) entry with the key. -/
def aget {α : Type} : List (String × α) → String → Option α
  | [], _ => none
  | (k, v) :: rest, c => if k = c then some v else aget rest c

/-- Sum over the values of a category map. -/
def sumVals : List (String × Nat) → Nat
  | [] => 0
  | (_, v) :: rest => v + sumVals rest

/-- `stats.categories[k] = (stats.categories[k] || 0) + 1` (src/server.js
line 279, and the `stats.categories.valid++` of line 276): update in place,
or append a fresh key with count 1. -/
def bumpCat : List (String × Nat) → String → List (String × Nat)
  | [], k => [(k, 1)]
  | (k', n) :: rest, k =>
    if k' = k then (k', n + 1) :: rest else (k', n) :: bumpCat rest k

/-- One domain-entry update (src/server.js lines 285-293): create the zero
triple if absent, then `total++` and one of `valid++` / `invalid++`. -/
def updStat (d : DomainStat) (isV : Bool) : DomainStat :=
  { total := d.total + 1,
    valid := if isV then d.valid + 1 else d.valid,
    invalid := if isV then d.invalid else d.invalid + 1 }

/-- `stats.domains[domain]` update: in place, or appended fresh. -/
def bumpDomain : List (String × DomainStat) → String → Bool → List (String × DomainStat)
  | [], k, isV => [(k, updStat ⟨0, 0, 0⟩ isV)]
  | (k', d) :: rest, k, isV =>
    if k' = k then (k', updStat d isV) :: rest else (k', d) :: bumpDomain rest k isV

/-- `result.email.split('@')[1]` (src/server.js line 284): the text between
the first and second `@`. -/
def splitAtChar (sep : Char) : List Char → List (List Char)
  | [] => [[]]
  | c :: rest =>
    if c = sep then [] :: splitAtChar sep rest
    else
      match splitAtChar sep rest with
      | [] => [[c]]
      | l :: ls => (c :: l) :: ls

/-- The domain key of a verdict's address. -/
def emailDomain (e : String) : String :=
  String.mk ((splitAtChar '@' e.data).getD 1 [])

/-- The category keys initialised to zero (src/server.js lines 257-268, in
source order).  `processing_error` is not among them. -/
def initialCategories : List (String × Nat) :=
  [("valid", 0), ("invalid_format", 0), ("no_mx_records", 0), ("dns_error", 0),
   ("not_existing", 0), ("smtp_timeout", 0), ("smtp_error", 0),
   ("connection_error", 0), ("mailbox_error", 0), ("temporary_error", 0)]

/-- The body of the `results.forEach` fold (src/server.js lines 273-295). -/
def tallyOne (s : Stats) (r : VerifyResult) : Stats :=
  let s1 :=
    if r.isValid then
      { s with valid := s.valid + 1, categories := bumpCat s.categories "valid" }
    else
      { s with invalid := s.invalid + 1, categories := bumpCat s.categories r.category }
  if '@' ∈ r.email.data then
    { s1 with domains := bumpDomain s1.domains (emailDomain r.email) r.isValid }
  else s1

/-- `analyzeResults` from src/server.js lines 252-308 (minus `topDomains`). -/
def analyzeResults (results : List VerifyResult) : Stats :=
  results.foldl tallyOne
    { total := results.length, valid := 0, invalid := 0,
      categories := initialCategories, domains := [] }

/-- The key a verdict is tallied under: `valid` results bump
`categories.valid`, others bump their own category key. -/
def catOf (r : VerifyResult) : String := if r.isValid then "valid" else r.category

/-- How many verdicts of the sequence are tallied under a category key. -/
def obsCount (rs : List VerifyResult) (c : String) : Nat :=
  rs.countP (fun r => catOf r == c)

/-! ### The batch scheduler, `processBatch` (src/server.js lines 311-381)

The scheduler partitions the input into groups of `concurrentLimit = 5`,
awaits each group behind a `Promise.all` barrier, and appends the group's
results — in input order — to the outer `results` array.  Each completion
increments `completed`; in the success branch, when `completed % 100 === 0`,
`onStatsUpdate` receives `analyzeResults(results)`, where `results` still
holds only the fully completed groups.  The fold below runs a group's
addresses in input order; this is faithful to any completion interleaving for
everything stated about it, because the snapshot content (the prior groups)
and the set of boundaries crossed inside a group do not depend on the order
of completions within the group.  The inter-group delay has no observable
effect on these values and is not modelled. -/

/-- The outcome of `await this.verifyEmail(email)` in the scheduler: a
verdict, or a thrown exception (caught on src/server.js lines 334-349). -/
inductive EmailOutcome where
  | ok (r : VerifyResult)
  | exn (errMsg : String)
deriving DecidableEq, Repr

/-- The synthesised `processing_error` verdict (src/server.js lines 336-342). -/
def errorResult (email errMsg : String) : VerifyResult :=
  ⟨email, false, "processing_error", "Ошибка обработки: " ++ errMsg, none, none⟩

/-- The verdict the scheduler stores for one address. -/
def resultOf (out : String → EmailOutcome) (email : String) : VerifyResult :=
  match out email with
  | .ok r => r
  | .exn m => errorResult email m

/-- Worker for `chunksOf`, structurally recursive on a fuel bound; each
chunk consumes at least one element, so a fuel of the list's length always
suffices and the fuel never changes the value (`chunksOfAux_fuel`). -/
def chunksOfAux {α : Type} (k : Nat) : Nat → List α → List (List α)
  | _, [] => []
  | 0, _ :: _ => []
  | fuel + 1, x :: xs => (x :: xs).take (k + 1) :: chunksOfAux k fuel (xs.drop k)

/-- `emails.slice(i, i + concurrentLimit)` grouping (src/server.js lines
356-359), for group size `k + 1` (the source's `concurrentLimit` is 5, so the
scheduler instantiates `k := 4`). -/
def chunksOf {α : Type} (k : Nat) (l : List α) : List (List α) :=
  chunksOfAux k l.length l

theorem chunksOfAux_fuel {α : Type} (k : Nat) :
    ∀ (f1 : Nat) (l : List α) (f2 : Nat), l.length ≤ f1 → l.length ≤ f2 →
      chunksOfAux k f1 l = chunksOfAux k f2 l := by
  intro f1
  induction f1 with
  | zero =>
    intro l f2 h1 h2
    match l with
    | [] => cases f2 <;> rfl
    | x :: xs => simp at h1
  | succ n ih =>
    intro l f2 h1 h2
    match l with
    | [] => cases f2 <;> rfl
    | x :: xs =>
      match f2 with
      | 0 => simp at h2
      | m + 1 =>
        show (x :: xs).take (k + 1) :: chunksOfAux k n (xs.drop k)
            = (x :: xs).take (k + 1) :: chunksOfAux k m (xs.drop k)
        have hl1 : (xs.drop k).length ≤ n := by
          simp only [List.length_drop]
          simp only [List.length_cons] at h1
          omega
        have hl2 : (xs.drop k).length ≤ m := by
          simp only [List.length_drop]
          simp only [List.length_cons] at h2
          omega
        rw [ih (xs.drop k) m hl1 hl2]

theorem chunksOf_nil {α : Type} (k : Nat) : chunksOf k ([] : List α) = [] := rfl

theorem chunksOf_cons {α : Type} (k : Nat) (x : α) (xs : List α) :
    chunksOf k (x :: xs) = (x :: xs).take (k + 1) :: chunksOf k (xs.drop k) := by
  show (x :: xs).take (k + 1) :: chunksOfAux k xs.length (xs.drop k)
      = (x :: xs).take (k + 1) :: chunksOfAux k (xs.drop k).length (xs.drop k)
  rw [chunksOfAux_fuel k xs.length (xs.drop k) (xs.drop k).length
    (by simp only [List.length_drop]; omega) le_rfl]

/-- One address inside a group (the async callback of src/server.js lines
318-350): `completed++`, then — only in the success branch — the
`completed % 100 === 0` check fires `onStatsUpdate(analyzeResults(results))`,
where `results` is the outer array `prior`, holding previous groups only. -/
def groupStep (out : String → EmailOutcome) (prior : List VerifyResult)
    (acc : List VerifyResult × Nat × List Stats) (email : String) :
    List VerifyResult × Nat × List Stats :=
  match out email with
  | .ok r =>
    (acc.1 ++ [r], acc.2.1 + 1,
      acc.2.2 ++ (if (acc.2.1 + 1) % 100 = 0 then [analyzeResults prior] else []))
  | .exn m => (acc.1 ++ [errorResult email m], acc.2.1 + 1, acc.2.2)

/-- `processGroup` (src/server.js lines 317-353), run over one group from the
outer state: `prior` is the outer `results` array (previous groups only),
`c0` the completed counter at group start.  Returns the group's results, the
new counter, and the `onStatsUpdate` arguments fired inside the group. -/
def processGroup (out : String → EmailOutcome) (prior : List VerifyResult) (c0 : Nat)
    (group : List String) : List VerifyResult × Nat × List Stats :=
  group.foldl (groupStep out prior) ([], c0, [])

/-- The sequential loop over groups (src/server.js lines 362-369): threads
the outer results array and the completed counter, collecting the stats
callbacks of every group. -/
def runGroups (out : String → EmailOutcome) :
    List (List String) → List VerifyResult → Nat → List VerifyResult × Nat × List Stats
  | [], res, c => (res, c, [])
  | g :: gs, res, c =>
    let pg := processGroup out res c g
    let rest := runGroups out gs (res ++ pg.1) pg.2.1
    (rest.1, rest.2.1, pg.2.2 ++ rest.2.2)

/-- What `processBatch` produces and signals. -/
structure BatchOut where
  results : List VerifyResult
  statsCalls : List Stats
  statistics : Stats
deriving DecidableEq, Repr

/-- `processBatch` from src/server.js lines 311-381 with both callbacks
provided: the returned results and final statistics, and the sequence of
arguments passed to `onStatsUpdate` (the per-group boundary snapshots, then
the final aggregate of line 374). -/
def processBatch (out : String → EmailOutcome) (emails : List String) : BatchOut :=
  let run := runGroups out (chunksOf 4 emails) [] 0
  { results := run.1, statsCalls := run.2.2 ++ [analyzeResults run.1],
    statistics := analyzeResults run.1 }

/-- The `completed % 100 === 0` boundaries crossed while the counter runs
from `c0` to `c0 + len`. -/
def bnds (c0 len : Nat) : List Nat :=
  ((List.range len).map (fun j => c0 + j + 1)).filter (fun b => b % 100 == 0)

/-! ### Shared facts about the aggregator's maps -/

/-- The spec's closed verdict-category set (spec section 3). -/
def closedCategorySet : List String :=
  ["valid", "invalid_format", "no_mx_records", "dns_error", "not_existing",
   "mailbox_error", "temporary_error", "smtp_error", "smtp_timeout",
   "connection_error", "processing_error"]

/-- The keys of `initialCategories`, in source order. -/
def defaultCategoryKeys : List String :=
  ["valid", "invalid_format", "no_mx_records", "dns_error", "not_existing",
   "smtp_timeout", "smtp_error", "connection_error", "mailbox_error",
   "temporary_error"]

theorem initialCategories_eq :
    initialCategories = defaultCategoryKeys.map (fun k => (k, 0)) := rfl

theorem aget_const_zero (ks : List String) (c : String) :
    aget (ks.map (fun k => (k, 0))) c = if c ∈ ks then some 0 else none := by
  induction ks with
  | nil => simp [aget]
  | cons k rest ih =>
    by_cases h : k = c
    · subst h
      simp [aget]
    · have h' : ¬c = k := fun hc => h hc.symm
      simp only [List.map_cons, aget, if_neg h, ih, List.mem_cons]
      simp [h']

theorem aget_bumpCat (m : List (String × Nat)) (k c : String) :
    aget (bumpCat m k) c =
      if c = k then some ((aget m k).getD 0 + 1) else aget m c := by
  induction m with
  | nil =>
    by_cases h : c = k
    · subst h
      simp [bumpCat, aget]
    · have h' : ¬k = c := fun hc => h hc.symm
      simp [bumpCat, aget, h, h']
  | cons p rest ih =>
    obtain ⟨k', n⟩ := p
    by_cases h1 : k' = k
    · subst h1
      by_cases h2 : c = k'
      · subst h2
        simp [bumpCat, aget]
      · have h2' : ¬k' = c := fun hc => h2 hc.symm
        simp [bumpCat, aget, h2, h2']
    · by_cases h2 : k' = c
      · subst h2
        simp [bumpCat, aget, h1]
      · simp [bumpCat, aget, h1, h2, ih]

/-- Combination of a pre-existing map entry with a tally, matching the
`(m[k] || 0) + 1` update discipline. -/
def combineOpt (o : Option Nat) (n : Nat) : Option Nat :=
  match o with
  | some m => some (m + n)
  | none => if n = 0 then none else some n

theorem tallyOne_categories (s : Stats) (r : VerifyResult) :
    (tallyOne s r).categories = bumpCat s.categories (catOf r) := by
  unfold tallyOne catOf
  cases hv : r.isValid <;> by_cases h2 : '@' ∈ r.email.data <;> simp [h2]

theorem tallyOne_valid (s : Stats) (r : VerifyResult) :
    (tallyOne s r).valid = s.valid + (if r.isValid then 1 else 0) := by
  unfold tallyOne
  cases hv : r.isValid <;> by_cases h2 : '@' ∈ r.email.data <;> simp [h2]

theorem tallyOne_invalid (s : Stats) (r : VerifyResult) :
    (tallyOne s r).invalid = s.invalid + (if r.isValid then 0 else 1) := by
  unfold tallyOne
  cases hv : r.isValid <;> by_cases h2 : '@' ∈ r.email.data <;> simp [h2]

theorem tallyOne_total (s : Stats) (r : VerifyResult) :
    (tallyOne s r).total = s.total := by
  unfold tallyOne
  cases hv : r.isValid <;> by_cases h2 : '@' ∈ r.email.data <;> simp [h2]

theorem tallyOne_domains (s : Stats) (r : VerifyResult) :
    (tallyOne s r).domains =
      if '@' ∈ r.email.data then bumpDomain s.domains (emailDomain r.email) r.isValid
      else s.domains := by
  unfold tallyOne
  cases hv : r.isValid <;> by_cases h2 : '@' ∈ r.email.data <;> simp [h2]

theorem aget_categories_foldl (rs : List VerifyResult) :
    ∀ (s : Stats) (c : String),
      aget (rs.foldl tallyOne s).categories c =
        combineOpt (aget s.categories c) (obsCount rs c) := by
  induction rs with
  | nil =>
    intro s c
    simp only [List.foldl_nil, obsCount, List.countP_nil]
    cases aget s.categories c <;> simp [combineOpt]
  | cons r rest ih =>
    intro s c
    rw [List.foldl_cons, ih, tallyOne_categories, aget_bumpCat]
    by_cases h : c = catOf r
    · rw [if_pos h, h]
      have hcnt : obsCount (r :: rest) (catOf r) = obsCount rest (catOf r) + 1 := by
        simp [obsCount, List.countP_cons]
      rw [hcnt]
      cases hag : aget s.categories (catOf r) <;> simp [combineOpt] <;> omega
    · rw [if_neg h]
      have hb : (catOf r == c) = false := by
        rw [beq_eq_false_iff_ne]
        exact fun hc => h hc.symm
      have hcnt : obsCount (r :: rest) c = obsCount rest c := by
        simp [obsCount, List.countP_cons, hb]
      rw [hcnt]

/-! ### Claim C6 — the format checker's acceptance contract -/

/-- C6: the format checker accepts an address iff it matches the anchored
rule — local part starting alphanumeric plus up to 63 of `A-Za-z0-9._%+-`,
then `@`, a domain starting alphanumeric plus up to 253 of `A-Za-z0-9.-`,
then a dot and an alphabetic TLD of length at least 2 — and in particular a
64-character local part is accepted while a 65-character one is rejected. -/
theorem format_checker_contract :
    (∀ email : String, isValidFormat email = true ↔ formatSpec email.data) ∧
    isValidFormat local64 = true ∧ isValidFormat local65 = false :=
  ⟨fun email => regexAccept_iff email.data, by decide, by decide⟩

/-- Witness for `format_checker_contract`: its universal part instantiated at
a concrete accepted address. -/
theorem format_checker_contract_w :
    isValidFormat "a@b.cc" = true ↔ formatSpec "a@b.cc".data :=
  format_checker_contract.1 "a@b.cc"

/-! ### Claim C1 — resolver failures and the `dns_error` verdict -/

/-- C1 counterexample: a transport resolver failure (`ETIMEDOUT`, which is
neither NXDOMAIN nor an empty answer) is swallowed by `getMxRecords` —
`dns.resolveMx`'s `err` branch resolves the promise with `[]` — so the
verifier emits `no_mx_records`, not the `dns_error` the claim requires. -/
theorem mx_transport_failure_cex :
    getMxRecords (.failure "ETIMEDOUT") = [] ∧
    (verifyEmail (.failure "ETIMEDOUT") (fun _ => .exn "unused") "user@example.com").category
      = "no_mx_records" ∧
    (verifyEmail (.failure "ETIMEDOUT") (fun _ => .exn "unused") "user@example.com").category
      ≠ "dns_error" := by
  refine ⟨rfl, ?_, ?_⟩ <;> decide

/-- C1 as amended: every resolver failure — transport errors included — makes
`getMxRecords` resolve with the empty list, so the verifier emits
`no_mx_records` for every well-formed address; the verifier's `dns_error`
branch is unreachable because the resolver never signals an error. -/
theorem mx_failure_yields_no_mx_records (code : String) (probe : String → ProbeOutcome)
    (email : String) (h : isValidFormat email = true) :
    getMxRecords (.failure code) = [] ∧
    (verifyEmail (.failure code) probe email).category = "no_mx_records" := by
  refine ⟨rfl, ?_⟩
  rw [verifyEmail]
  simp [h, getMxRecords]

/-- Witness for `mx_failure_yields_no_mx_records`. -/
theorem mx_failure_yields_no_mx_records_w :
    isValidFormat "user@sample.org" = true ∧
    (verifyEmail (.failure "ESERVFAIL") (fun _ => .exn "w") "user@sample.org").category
      = "no_mx_records" :=
  ⟨by decide,
   (mx_failure_yields_no_mx_records "ESERVFAIL" (fun _ => .exn "w") "user@sample.org"
     (by decide)).2⟩

/-! ### Claim C2 — the category histogram's zero defaults -/

/-- C2 counterexample: `processing_error` belongs to the spec's closed
category set, but the empty input's aggregate has no `processing_error` entry
at all — the source's `initialCategories` object omits it, so it is only ever
added on observation. -/
theorem categories_missing_processing_error_cex :
    "processing_error" ∈ closedCategorySet ∧
    aget (analyzeResults []).categories "processing_error" = none := by
  refine ⟨?_, ?_⟩ <;> decide

/-- C2 as amended: every category of the closed set except `processing_error`
is present in the histogram with a zero default and carries its observed
count; `processing_error` — like any unexpected category observed in the
input — is added with its observed count only when a verdict of that
category occurs. -/
theorem categories_histogram (rs : List VerifyResult) (c : String) :
    (c ∈ defaultCategoryKeys →
      aget (analyzeResults rs).categories c = some (obsCount rs c)) ∧
    (c ∉ defaultCategoryKeys →
      aget (analyzeResults rs).categories c =
        if obsCount rs c = 0 then none else some (obsCount rs c)) := by
  have hfold := aget_categories_foldl rs
    { total := rs.length, valid := 0, invalid := 0,
      categories := initialCategories, domains := [] } c
  have hinit : aget initialCategories c =
      if c ∈ defaultCategoryKeys then some 0 else none := by
    rw [initialCategories_eq, aget_const_zero]
  constructor
  · intro hc
    rw [show analyzeResults rs = rs.foldl tallyOne
      { total := rs.length, valid := 0, invalid := 0,
        categories := initialCategories, domains := [] } from rfl, hfold]
    rw [hinit, if_pos hc]
    simp [combineOpt]
  · intro hc
    rw [show analyzeResults rs = rs.foldl tallyOne
      { total := rs.length, valid := 0, invalid := 0,
        categories := initialCategories, domains := [] } from rfl, hfold]
    rw [hinit, if_neg hc]
    simp [combineOpt]

/-- A sample invalid verdict used by witnesses. -/
def sampleDnsVerdict : VerifyResult :=
  ⟨"x@b.cc", false, "dns_error", "Ошибка поиска MX записей", none, none⟩

/-- Witness for `categories_histogram`: a default key is present with its
count, an unexpected key is absent when unobserved. -/
theorem categories_histogram_w :
    aget (analyzeResults [sampleDnsVerdict]).categories "dns_error"
        = some (obsCount [sampleDnsVerdict] "dns_error") ∧
    aget (analyzeResults [sampleDnsVerdict]).categories "unexpected_cat"
        = (if obsCount [sampleDnsVerdict] "unexpected_cat" = 0 then none
           else some (obsCount [sampleDnsVerdict] "unexpected_cat")) :=
  ⟨(categories_histogram [sampleDnsVerdict] "dns_error").1 (by decide),
   (categories_histogram [sampleDnsVerdict] "unexpected_cat").2 (by decide)⟩

/-! ### Counting lemmas for the aggregate's totals -/

theorem countP_compl_add {α : Type} (p : α → Bool) (l : List α) :
    l.countP p + l.countP (fun a => !p a) = l.length := by
  induction l with
  | nil => simp
  | cons x xs ih =>
    simp only [List.countP_cons, List.length_cons]
    cases h : p x <;> simp [h] <;> omega

theorem valid_foldl (rs : List VerifyResult) :
    ∀ s : Stats, (rs.foldl tallyOne s).valid = s.valid + rs.countP (fun r => r.isValid) := by
  induction rs with
  | nil => intro s; simp
  | cons r rest ih =>
    intro s
    rw [List.foldl_cons, ih, tallyOne_valid]
    simp only [List.countP_cons]
    cases h : r.isValid <;> simp [h] <;> omega

theorem invalid_foldl (rs : List VerifyResult) :
    ∀ s : Stats, (rs.foldl tallyOne s).invalid = s.invalid + rs.countP (fun r => !r.isValid) := by
  induction rs with
  | nil => intro s; simp
  | cons r rest ih =>
    intro s
    rw [List.foldl_cons, ih, tallyOne_invalid]
    simp only [List.countP_cons]
    cases h : r.isValid <;> simp [h] <;> omega

theorem total_foldl (rs : List VerifyResult) :
    ∀ s : Stats, (rs.foldl tallyOne s).total = s.total := by
  induction rs with
  | nil => intro s; simp
  | cons r rest ih =>
    intro s
    rw [List.foldl_cons, ih, tallyOne_total]

theorem sumVals_bumpCat (m : List (String × Nat)) (k : String) :
    sumVals (bumpCat m k) = sumVals m + 1 := by
  induction m with
  | nil => simp [bumpCat, sumVals]
  | cons p rest ih =>
    obtain ⟨k', n⟩ := p
    by_cases h : k' = k <;> simp [bumpCat, sumVals, h, ih] <;> omega

theorem sumVals_foldl (rs : List VerifyResult) :
    ∀ s : Stats, sumVals (rs.foldl tallyOne s).categories = sumVals s.categories + rs.length := by
  induction rs with
  | nil => intro s; simp
  | cons r rest ih =>
    intro s
    rw [List.foldl_cons, ih, tallyOne_categories, sumVals_bumpCat]
    simp only [List.length_cons]
    omega

/-! ### Per-domain-entry invariants -/

theorem updStat_inv (d : DomainStat) (isV : Bool) (h : d.valid + d.invalid = d.total) :
    (updStat d isV).valid + (updStat d isV).invalid = (updStat d isV).total := by
  cases isV <;> simp [updStat] <;> omega

theorem bumpDomain_inv (m : List (String × DomainStat)) (k : String) (isV : Bool)
    (h : ∀ p ∈ m, p.2.valid + p.2.invalid = p.2.total) :
    ∀ p ∈ bumpDomain m k isV, p.2.valid + p.2.invalid = p.2.total := by
  induction m with
  | nil =>
    intro p hp
    simp only [bumpDomain, List.mem_singleton] at hp
    subst hp
    exact updStat_inv ⟨0, 0, 0⟩ isV (by simp)
  | cons q rest ih =>
    obtain ⟨k', d⟩ := q
    by_cases hk : k' = k
    · intro p hp
      simp only [bumpDomain, if_pos hk, List.mem_cons] at hp
      rcases hp with hp | hp
      · subst hp
        exact updStat_inv d isV (h (k', d) (by simp))
      · exact h p (by simp [hp])
    · intro p hp
      simp only [bumpDomain, if_neg hk, List.mem_cons] at hp
      rcases hp with hp | hp
      · subst hp
        exact h (k', d) (by simp)
      · exact ih (fun q hq => h q (by simp [hq])) p hp

theorem domains_inv_foldl (rs : List VerifyResult) :
    ∀ s : Stats, (∀ p ∈ s.domains, p.2.valid + p.2.invalid = p.2.total) →
      ∀ p ∈ (rs.foldl tallyOne s).domains, p.2.valid + p.2.invalid = p.2.total := by
  induction rs with
  | nil => intro s h; simpa using h
  | cons r rest ih =>
    intro s h
    rw [List.foldl_cons]
    refine ih (tallyOne s r) ?_
    rw [tallyOne_domains]
    by_cases hat : '@' ∈ r.email.data
    · rw [if_pos hat]
      exact bumpDomain_inv s.domains (emailDomain r.email) r.isValid h
    · rw [if_neg hat]
      exact h

/-! ### Claim C7 — the aggregate's sum invariants -/

/-- C7: for every verdict sequence the aggregate satisfies
`valid + invalid = total`, the category counts sum to `total`, and every
domain entry satisfies `valid + invalid = total`. -/
theorem aggregate_sum_invariants (rs : List VerifyResult) :
    (analyzeResults rs).valid + (analyzeResults rs).invalid = (analyzeResults rs).total ∧
    sumVals (analyzeResults rs).categories = (analyzeResults rs).total ∧
    ∀ p ∈ (analyzeResults rs).domains, p.2.valid + p.2.invalid = p.2.total := by
  have hdef : analyzeResults rs = rs.foldl tallyOne
      { total := rs.length, valid := 0, invalid := 0,
        categories := initialCategories, domains := [] } := rfl
  refine ⟨?_, ?_, ?_⟩
  · rw [hdef, valid_foldl, invalid_foldl, total_foldl]
    simpa using countP_compl_add (fun r => r.isValid) rs
  · rw [hdef, sumVals_foldl, total_foldl]
    have : sumVals initialCategories = 0 := by decide
    simp [this]
  · rw [hdef]
    exact domains_inv_foldl rs _ (by simp)

/-- Witness for `aggregate_sum_invariants`: the domain-entry conjunct
discharged at a concrete aggregate and entry. -/
theorem aggregate_sum_invariants_w :
    ("b.cc", DomainStat.mk 1 0 1) ∈ (analyzeResults [sampleDnsVerdict]).domains ∧
    (DomainStat.mk 1 0 1).valid + (DomainStat.mk 1 0 1).invalid = (DomainStat.mk 1 0 1).total :=
  ⟨by decide,
   (aggregate_sum_invariants [sampleDnsVerdict]).2.2 ("b.cc", DomainStat.mk 1 0 1) (by decide)⟩

/-! ### Pointwise measures of an aggregate, for the additivity claim -/

/-- The count an aggregate holds for a category key (0 when absent). -/
def catGet (s : Stats) (c : String) : Nat := (aget s.categories c).getD 0

/-- The total an aggregate holds for a domain key (0 when absent). -/
def domTotal (s : Stats) (d : String) : Nat :=
  match aget s.domains d with
  | some t => t.total
  | none => 0

/-- Whether a verdict is tallied into the domain entry `d`. -/
def domMatch (r : VerifyResult) (d : String) : Bool :=
  decide ('@' ∈ r.email.data) && (emailDomain r.email == d)

theorem aget_bumpDomain (m : List (String × DomainStat)) (k c : String) (isV : Bool) :
    aget (bumpDomain m k isV) c =
      if c = k then some (updStat ((aget m k).getD ⟨0, 0, 0⟩) isV) else aget m c := by
  induction m with
  | nil =>
    by_cases h : c = k
    · subst h
      simp [bumpDomain, aget]
    · have h' : ¬k = c := fun hc => h hc.symm
      simp [bumpDomain, aget, h, h']
  | cons p rest ih =>
    obtain ⟨k', d⟩ := p
    by_cases h1 : k' = k
    · subst h1
      by_cases h2 : c = k'
      · subst h2
        simp [bumpDomain, aget]
      · have h2' : ¬k' = c := fun hc => h2 hc.symm
        simp [bumpDomain, aget, h2, h2']
    · by_cases h2 : k' = c
      · subst h2
        simp [bumpDomain, aget, h1]
      · simp [bumpDomain, aget, h1, h2, ih]

theorem domTotal_foldl (rs : List VerifyResult) :
    ∀ (s : Stats) (d : String),
      domTotal (rs.foldl tallyOne s) d = domTotal s d + rs.countP (fun r => domMatch r d) := by
  induction rs with
  | nil => intro s d; simp [domTotal]
  | cons r rest ih =>
    intro s d
    rw [List.foldl_cons, ih]
    have hstep : domTotal (tallyOne s r) d =
        domTotal s d + (if domMatch r d then 1 else 0) := by
      unfold domTotal
      rw [tallyOne_domains]
      by_cases hat : '@' ∈ r.email.data
      · rw [if_pos hat]
        rw [aget_bumpDomain]
        by_cases hd : d = emailDomain r.email
        · rw [if_pos hd, ← hd]
          have hm : domMatch r d = true := by
            simp [domMatch, hat, hd.symm]
          rw [hm]
          cases hag : aget s.domains d <;> simp [updStat]
        · rw [if_neg hd]
          have hm : domMatch r d = false := by
            simp only [domMatch, Bool.and_eq_false_iff]
            right
            rw [beq_eq_false_iff_ne]
            exact fun hc => hd hc.symm
          rw [hm]
          simp
      · rw [if_neg hat]
        have hm : domMatch r d = false := by
          simp [domMatch, hat]
        rw [hm]
        simp
    rw [hstep]
    simp only [List.countP_cons]
    cases hm : domMatch r d <;> simp [hm] <;> omega

theorem catGet_analyze (rs : List VerifyResult) (c : String) :
    catGet (analyzeResults rs) c = obsCount rs c := by
  have hdef : analyzeResults rs = rs.foldl tallyOne
      { total := rs.length, valid := 0, invalid := 0,
        categories := initialCategories, domains := [] } := rfl
  have h2 : aget (analyzeResults rs).categories c
      = combineOpt (aget initialCategories c) (obsCount rs c) :=
    aget_categories_foldl rs
      { total := rs.length, valid := 0, invalid := 0,
        categories := initialCategories, domains := [] } c
  unfold catGet
  rw [h2, initialCategories_eq, aget_const_zero]
  by_cases h : c ∈ defaultCategoryKeys
  · rw [if_pos h]
    simp [combineOpt]
  · rw [if_neg h]
    by_cases h0 : obsCount rs c = 0 <;> simp [combineOpt, h0]

theorem domTotal_analyze (rs : List VerifyResult) (d : String) :
    domTotal (analyzeResults rs) d = rs.countP (fun r => domMatch r d) := by
  have hdef : analyzeResults rs = rs.foldl tallyOne
      { total := rs.length, valid := 0, invalid := 0,
        categories := initialCategories, domains := [] } := rfl
  rw [hdef, domTotal_foldl]
  simp [domTotal, aget]

/-! ### Claim C9 — additivity of the aggregate under concatenation -/

/-- C9: aggregating the concatenation of two verdict sequences over disjoint
address sets equals the pointwise sum of the two aggregates on `total`,
`valid`, `invalid`, every category count and every per-domain total. -/
theorem aggregate_concat_additive (xs ys : List VerifyResult)
    (hdisj : ∀ a ∈ xs, ∀ b ∈ ys, a.email ≠ b.email) :
    (analyzeResults (xs ++ ys)).total
        = (analyzeResults xs).total + (analyzeResults ys).total ∧
    (analyzeResults (xs ++ ys)).valid
        = (analyzeResults xs).valid + (analyzeResults ys).valid ∧
    (analyzeResults (xs ++ ys)).invalid
        = (analyzeResults xs).invalid + (analyzeResults ys).invalid ∧
    (∀ c, catGet (analyzeResults (xs ++ ys)) c
        = catGet (analyzeResults xs) c + catGet (analyzeResults ys) c) ∧
    (∀ d, domTotal (analyzeResults (xs ++ ys)) d
        = domTotal (analyzeResults xs) d + domTotal (analyzeResults ys) d) := by
  have hdef : ∀ rs : List VerifyResult, analyzeResults rs = rs.foldl tallyOne
      { total := rs.length, valid := 0, invalid := 0,
        categories := initialCategories, domains := [] } := fun _ => rfl
  refine ⟨?_, ?_, ?_, ?_, ?_⟩
  · rw [hdef, hdef, hdef, total_foldl, total_foldl, total_foldl]
    simp
  · rw [hdef, hdef, hdef, valid_foldl, valid_foldl, valid_foldl]
    simp [List.countP_append]
  · rw [hdef, hdef, hdef, invalid_foldl, invalid_foldl, invalid_foldl]
    simp [List.countP_append]
  · intro c
    rw [catGet_analyze, catGet_analyze, catGet_analyze]
    simp [obsCount, List.countP_append]
  · intro d
    rw [domTotal_analyze, domTotal_analyze, domTotal_analyze]
    simp [List.countP_append]

/-- A sample valid verdict used by witnesses, on a different address. -/
def sampleValidVerdict : VerifyResult :=
  ⟨"y@c.dd", true, "valid", "Email существует", some "mx.c.dd", some ["mx.c.dd"]⟩

/-- Witness for `aggregate_concat_additive`: its disjointness hypothesis
discharged at two concrete one-element sequences. -/
theorem aggregate_concat_additive_w :
    (analyzeResults ([sampleDnsVerdict] ++ [sampleValidVerdict])).total
        = (analyzeResults [sampleDnsVerdict]).total
            + (analyzeResults [sampleValidVerdict]).total ∧
    catGet (analyzeResults ([sampleDnsVerdict] ++ [sampleValidVerdict])) "valid"
        = catGet (analyzeResults [sampleDnsVerdict]) "valid"
            + catGet (analyzeResults [sampleValidVerdict]) "valid" :=
  ⟨(aggregate_concat_additive [sampleDnsVerdict] [sampleValidVerdict] (by decide)).1,
   (aggregate_concat_additive [sampleDnsVerdict] [sampleValidVerdict]
      (by decide)).2.2.2.1 "valid"⟩

/-! ### The scheduler's bookkeeping, characterised -/

/-- The `onStatsUpdate` arguments one group fires: one snapshot of the prior
groups' aggregate per 100-boundary crossed by a successful completion. -/
def statCallsOf (out : String → EmailOutcome) (prior : List VerifyResult) :
    Nat → List String → List Stats
  | _, [] => []
  | c, email :: rest =>
    (match out email with
     | .ok _ => if (c + 1) % 100 = 0 then [analyzeResults prior] else []
     | .exn _ => []) ++ statCallsOf out prior (c + 1) rest

theorem groupStep_foldl (out : String → EmailOutcome) (prior : List VerifyResult)
    (g : List String) :
    ∀ (rs0 : List VerifyResult) (c0 : Nat) (cs0 : List Stats),
      g.foldl (groupStep out prior) (rs0, c0, cs0) =
        (rs0 ++ g.map (resultOf out), c0 + g.length,
         cs0 ++ statCallsOf out prior c0 g) := by
  induction g with
  | nil => intro rs0 c0 cs0; simp [statCallsOf]
  | cons e rest ih =>
    intro rs0 c0 cs0
    rw [List.foldl_cons]
    cases ho : out e with
    | ok r =>
      show rest.foldl (groupStep out prior) (groupStep out prior (rs0, c0, cs0) e) = _
      rw [show groupStep out prior (rs0, c0, cs0) e =
          (rs0 ++ [r], c0 + 1, cs0 ++ (if (c0 + 1) % 100 = 0 then [analyzeResults prior] else []))
        from by simp [groupStep, ho]]
      rw [ih]
      simp only [List.map_cons, List.length_cons, statCallsOf, ho, resultOf]
      simp only [Prod.mk.injEq]
      refine ⟨by simp, by omega, by simp⟩
    | exn m =>
      show rest.foldl (groupStep out prior) (groupStep out prior (rs0, c0, cs0) e) = _
      rw [show groupStep out prior (rs0, c0, cs0) e =
          (rs0 ++ [errorResult e m], c0 + 1, cs0) from by simp [groupStep, ho]]
      rw [ih]
      simp only [List.map_cons, List.length_cons, statCallsOf, ho, resultOf]
      simp only [Prod.mk.injEq]
      refine ⟨by simp, by omega, by simp⟩

theorem processGroup_spec (out : String → EmailOutcome) (prior : List VerifyResult)
    (c0 : Nat) (g : List String) :
    processGroup out prior c0 g =
      (g.map (resultOf out), c0 + g.length, statCallsOf out prior c0 g) := by
  unfold processGroup
  rw [groupStep_foldl]
  simp

theorem runGroups_results (out : String → EmailOutcome) :
    ∀ (gs : List (List String)) (res : List VerifyResult) (c : Nat),
      (runGroups out gs res c).1 = res ++ (gs.map (fun g => g.map (resultOf out))).flatten := by
  intro gs
  induction gs with
  | nil => intro res c; simp [runGroups]
  | cons g rest ih =>
    intro res c
    simp only [runGroups, processGroup_spec, ih]
    simp

theorem chunksOf_flatten_bounded {α : Type} (k : Nat) :
    ∀ (n : Nat) (l : List α), l.length ≤ n → (chunksOf k l).flatten = l := by
  intro n
  induction n with
  | zero =>
    intro l hl
    have : l = [] := List.eq_nil_of_length_eq_zero (Nat.le_zero.mp hl)
    subst this
    simp [chunksOf_nil]
  | succ n ih =>
    intro l hl
    match l with
    | [] => simp [chunksOf_nil]
    | x :: xs =>
      rw [chunksOf_cons]
      simp only [List.flatten_cons]
      rw [ih (xs.drop k) (by simp only [List.length_drop]; simp at hl; omega)]
      have hdrop : xs.drop k = (x :: xs).drop (k + 1) := by simp
      rw [hdrop, List.take_append_drop]

theorem chunksOf_flatten {α : Type} (k : Nat) (l : List α) : (chunksOf k l).flatten = l :=
  chunksOf_flatten_bounded k l.length l le_rfl

theorem map_flatten_eq {α β : Type} (f : α → β) :
    ∀ gs : List (List α), (gs.map (fun g => g.map f)).flatten = gs.flatten.map f := by
  intro gs
  induction gs with
  | nil => simp
  | cons g rest ih => simp only [List.map_cons, List.flatten_cons, List.map_append, ih]

/-! ### Claim C8 — the batch results vector preserves input order -/

/-- C8: the scheduler's results vector has exactly one entry per input
address, and the verdict at index `i` is the verdict for the address at index
`i` — input order survives the grouping into chunks of `concurrentLimit`. -/
theorem batch_preserves_input_order (out : String → EmailOutcome) (emails : List String) :
    (processBatch out emails).results = emails.map (resultOf out) ∧
    (processBatch out emails).results.length = emails.length ∧
    ∀ i : Nat, (processBatch out emails).results[i]? = (emails[i]?).map (resultOf out) := by
  have hres : (processBatch out emails).results = emails.map (resultOf out) := by
    show (runGroups out (chunksOf 4 emails) [] 0).1 = emails.map (resultOf out)
    rw [runGroups_results, map_flatten_eq, chunksOf_flatten]
    simp
  refine ⟨hres, ?_, ?_⟩
  · rw [hres]
    simp
  · intro i
    rw [hres]
    simp

/-! ### The boundary list `bnds`, characterised -/

theorem bnds_zero (c : Nat) : bnds c 0 = [] := rfl

theorem bnds_succ (c n : Nat) :
    bnds c (n + 1) = (if (c + 1) % 100 = 0 then [c + 1] else []) ++ bnds (c + 1) n := by
  unfold bnds
  rw [List.range_succ_eq_map, List.map_cons, List.filter_cons]
  have hmap : ((List.range n).map Nat.succ).map (fun j => c + j + 1)
      = (List.range n).map (fun j => (c + 1) + j + 1) := by
    rw [List.map_map]
    refine List.map_congr_left ?_
    intro j _
    simp only [Function.comp_apply, Nat.succ_eq_add_one]
    omega
  rw [hmap]
  have hc : c + 0 + 1 = c + 1 := by omega
  rw [hc]
  by_cases h : (c + 1) % 100 = 0
  · simp [h]
  · simp [h]

theorem bnds_add (c a b : Nat) : bnds c (a + b) = bnds c a ++ bnds (c + a) b := by
  unfold bnds
  rw [List.range_add, List.map_append, List.filter_append]
  congr 1
  rw [List.map_map]
  refine congrArg _ (List.map_congr_left ?_)
  intro j _
  simp only [Function.comp_apply]
  omega

theorem bnds_mem (c0 m b : Nat) (hb : b ∈ bnds c0 m) :
    c0 < b ∧ b ≤ c0 + m ∧ b % 100 = 0 := by
  unfold bnds at hb
  simp only [List.mem_filter, List.mem_map, List.mem_range, beq_iff_eq] at hb
  obtain ⟨⟨j, hj, rfl⟩, hmod⟩ := hb
  omega

theorem bnds_small (c0 m : Nat) (hm : m ≤ 5) (hc : c0 % 5 = 0) :
    ∀ b ∈ bnds c0 m, b = c0 + 5 := by
  intro b hb
  obtain ⟨h1, h2, h3⟩ := bnds_mem c0 m b hb
  omega

theorem statCallsOf_ok (f : String → VerifyResult) (prior : List VerifyResult) :
    ∀ (g : List String) (c : Nat),
      statCallsOf (fun e => .ok (f e)) prior c g
        = (bnds c g.length).map (fun _ => analyzeResults prior) := by
  intro g
  induction g with
  | nil => intro c; simp [statCallsOf, bnds]
  | cons e rest ih =>
    intro c
    simp only [statCallsOf, List.length_cons, bnds_succ, List.map_append, ih]
    congr 1
    by_cases h : (c + 1) % 100 = 0 <;> simp [h]

theorem resultOf_ok (f : String → VerifyResult) :
    resultOf (fun e => EmailOutcome.ok (f e)) = f :=
  funext fun _ => rfl

theorem runGroups_calls_ok (f : String → VerifyResult) :
    ∀ (n : Nat) (l : List String) (R : List VerifyResult) (c0 : Nat),
      l.length ≤ n → c0 % 5 = 0 →
      (runGroups (fun e => .ok (f e)) (chunksOf 4 l) R c0).2.2 =
        (bnds c0 l.length).map
          (fun b => analyzeResults (R ++ (l.take (b - c0 - 5)).map f)) := by
  intro n
  induction n with
  | zero =>
    intro l R c0 hl _
    have : l = [] := List.eq_nil_of_length_eq_zero (Nat.le_zero.mp hl)
    subst this
    simp [chunksOf_nil, runGroups, bnds]
  | succ n ih =>
    intro l R c0 hl hc
    match l with
    | [] => simp [chunksOf_nil, runGroups, bnds]
    | x :: xs =>
      rw [chunksOf_cons]
      simp only [runGroups, processGroup_spec, resultOf_ok, statCallsOf_ok]
      have hdrop : xs.drop 4 = (x :: xs).drop 5 := by
        rw [show (5 : Nat) = 4 + 1 from rfl, List.drop_succ_cons]
      by_cases hlen : (x :: xs).length ≤ 5
      · have hg : (x :: xs).take 5 = x :: xs := List.take_of_length_le hlen
        have hrest : (x :: xs).drop 5 = [] := List.drop_eq_nil_of_le hlen
        rw [hg, hdrop, hrest]
        simp only [chunksOf_nil, runGroups]
        rw [List.append_nil]
        refine List.map_congr_left ?_
        intro b hb
        have hb5 := bnds_small c0 (x :: xs).length hlen hc b hb
        have : b - c0 - 5 = 0 := by omega
        rw [this]
        simp
      · have hg5 : ((x :: xs).take 5).length = 5 := by
          rw [List.length_take]
          omega
        have hsplit : (x :: xs).length = 5 + ((x :: xs).length - 5) := by omega
        rw [hsplit, bnds_add, List.map_append]
        have hxs : (xs.drop 4).length = (x :: xs).length - 5 := by
          rw [hdrop, List.length_drop]
        have hih := ih (xs.drop 4) (R ++ ((x :: xs).take 5).map f) (c0 + 5)
          (by rw [hxs]; simp only [List.length_cons] at hl ⊢; omega)
          (by omega)
        rw [hg5, hih, hxs]
        congr 1
        · refine List.map_congr_left ?_
          intro b hb
          have hb5 := bnds_small c0 5 le_rfl hc b hb
          have : b - c0 - 5 = 0 := by omega
          rw [this]
          simp
        · refine List.map_congr_left ?_
          intro b hb
          obtain ⟨hlo, _, hmod⟩ := bnds_mem (c0 + 5) ((x :: xs).length - 5) b hb
          have hge : b - c0 - 5 = 5 + (b - c0 - 10) := by omega
          have hsub : b - (c0 + 5) - 5 = b - c0 - 10 := by omega
          rw [hge, hsub, List.take_add, List.map_append, List.append_assoc, hdrop]

/-! ### Claim C3 — what the periodic stats snapshots cover -/

/-- The all-successful outcome used by the C3 counterexample. -/
def okOutcome : String → EmailOutcome := fun e =>
  .ok ⟨e, true, "valid", "Email существует", none, none⟩

set_option maxRecDepth 100000 in
/-- C3 counterexample: on a batch of 100 addresses the completed counter
reaches 100 during the 20th group, but the snapshot passed to `onStatsUpdate`
aggregates only the 95 verdicts of the fully completed groups — the outer
`results` array is appended only after the group barrier — so the boundary
call does not cover "all verdicts emitted so far" (100 at that moment); only
the final call covers all 100. -/
theorem stats_snapshot_excludes_inflight_cex :
    (processBatch okOutcome (List.replicate 100 "a@b.cc")).statsCalls.map
        (fun s => s.total) = [95, 100] ∧
    ((processBatch okOutcome (List.replicate 100 "a@b.cc")).statsCalls.map
        (fun s => s.total)).head? ≠ some 100 := by
  refine ⟨?_, ?_⟩ <;> decide

/-- C3 as amended: when every address verifies without an internal error,
`onStatsUpdate` fires once per 100-completions boundary `b`, but with an
aggregate computed over the verdicts of the groups that completed before the
group in flight — the first `b - 5` verdicts (5 = `concurrentLimit`), not all
`b` emitted so far — and once more at batch end with the final aggregate over
all verdicts. -/
theorem stats_update_schedule (f : String → VerifyResult) (emails : List String) :
    (processBatch (fun e => .ok (f e)) emails).statsCalls =
      ((bnds 0 emails.length).map
        (fun b => analyzeResults ((emails.take (b - 5)).map f)))
      ++ [analyzeResults (emails.map f)] := by
  have hres : (runGroups (fun e => EmailOutcome.ok (f e)) (chunksOf 4 emails) [] 0).1
      = emails.map f := by
    rw [runGroups_results, map_flatten_eq, chunksOf_flatten, resultOf_ok]
    simp
  have hcalls := runGroups_calls_ok f emails.length emails [] 0 le_rfl (by omega)
  show (runGroups (fun e => EmailOutcome.ok (f e)) (chunksOf 4 emails) [] 0).2.2
      ++ [analyzeResults (runGroups (fun e => EmailOutcome.ok (f e)) (chunksOf 4 emails) [] 0).1]
    = _
  rw [hres, hcalls]
  refine congrArg (fun l => l ++ [analyzeResults (emails.map f)]) ?_
  refine List.map_congr_left ?_
  intro b _
  simp

/-! ### The verifier's MX loop, characterised -/

/-- A probe outcome that did not return a valid result: either an exception
(skipped host) or a resolved non-valid result. -/
def notValidOutcome : ProbeOutcome → Prop
  | .ok s => s.isValid = false
  | .exn _ => True

theorem lastOk_mem (probe : String → ProbeOutcome) :
    ∀ (mx : List String) (h : String) (s : SmtpResult),
      lastOk probe mx = some (h, s) → h ∈ mx ∧ probe h = .ok s := by
  intro mx
  induction mx with
  | nil => intro h s hl; simp [lastOk] at hl
  | cons x xs ih =>
    intro h s hl
    rw [lastOk] at hl
    cases hxs : lastOk probe xs with
    | some p =>
      rw [hxs] at hl
      simp only [Option.some.injEq] at hl
      obtain ⟨hm, hp⟩ := ih h s (by rw [hxs, hl])
      exact ⟨by simp [hm], hp⟩
    | none =>
      rw [hxs] at hl
      cases hx : probe x with
      | ok sx =>
        rw [hx] at hl
        simp only [Option.some.injEq, Prod.mk.injEq] at hl
        obtain ⟨rfl, rfl⟩ := hl
        exact ⟨by simp, hx⟩
      | exn m => rw [hx] at hl; simp at hl

theorem smtpLoop_valid_win (probe : String → ProbeOutcome) :
    ∀ (pre : List String) (h : String) (post : List String) (r : VerifyResult)
      (s : SmtpResult),
      (∀ x ∈ pre, notValidOutcome (probe x)) → probe h = .ok s → s.isValid = true →
      smtpLoop probe (pre ++ h :: post) r =
        ⟨r.email, true, "valid", "Email существует", some h, r.mxRecords⟩ := by
  intro pre
  induction pre with
  | nil =>
    intro h post r s _ hok hv
    rw [List.nil_append, smtpLoop, hok]
    simp [hv]
  | cons x xs ih =>
    intro h post r s hpre hok hv
    rw [List.cons_append]
    cases hx : probe x with
    | exn m =>
      simp only [smtpLoop, hx]
      exact ih h post r s (fun y hy => hpre y (by simp [hy])) hok hv
    | ok sx =>
      have hnv : sx.isValid = false := by
        have := hpre x (by simp)
        rw [hx] at this
        exact this
      simp only [smtpLoop, hx, hnv]
      rw [if_neg (show ¬(false = true) by simp)]
      rw [ih h post _ s (fun y hy => hpre y (by simp [hy])) hok hv]

theorem smtpLoop_all_nonvalid (probe : String → ProbeOutcome) :
    ∀ (mx : List String) (r : VerifyResult),
      (∀ x ∈ mx, notValidOutcome (probe x)) →
      smtpLoop probe mx r =
        (match lastOk probe mx with
         | none => r
         | some (h, s) =>
           { r with message := s.message,
                    category := if s.category = "" then "smtp_error" else s.category,
                    smtpServer := some h }) := by
  intro mx
  induction mx with
  | nil => intro r _; simp [smtpLoop, lastOk]
  | cons x xs ih =>
    intro r hpre
    rw [lastOk]
    cases hx : probe x with
    | exn m =>
      simp only [smtpLoop, hx]
      rw [ih r (fun y hy => hpre y (by simp [hy]))]
      cases hxs : lastOk probe xs <;> simp
    | ok sx =>
      have hnv : sx.isValid = false := by
        have := hpre x (by simp)
        rw [hx] at this
        exact this
      simp only [smtpLoop, hx, hnv]
      rw [if_neg (show ¬(false = true) by simp)]
      rw [ih _ (fun y hy => hpre y (by simp [hy]))]
      cases hxs : lastOk probe xs with
      | some p => rfl
      | none => rfl

theorem verifyEmail_loop (dns : DnsOutcome) (probe : String → ProbeOutcome) (email : String)
    (hfmt : isValidFormat email = true)
    (m : String) (ms : List String) (hmx : getMxRecords dns = m :: ms) :
    verifyEmail dns probe email =
      (if (smtpLoop probe (m :: ms) ⟨email, false, "invalid", "", none, some (m :: ms)⟩).message
          = "" then
        { smtpLoop probe (m :: ms) ⟨email, false, "invalid", "", none, some (m :: ms)⟩ with
          message := "Все SMTP серверы недоступны", category := "smtp_timeout" }
      else smtpLoop probe (m :: ms) ⟨email, false, "invalid", "", none, some (m :: ms)⟩) := by
  unfold verifyEmail
  rw [hmx]
  simp [hfmt]

/-! ### Claim C4 — MX fallback: first valid wins, otherwise latest verdict -/

/-- C4: probing MX hosts in priority order, (i) the first host whose probe
returns valid makes the verifier emit `valid` immediately with that host in
`details.smtpServer`, independently of the probes of all later hosts; and
(ii) when every probe is non-valid (exceptions skipped — including after a
550/551 `not_existing` result the loop goes on), the emitted verdict carries
the category, message and host of the latest probe that produced a result.
The hypotheses that a probe result has a non-empty message and category hold
for every result `checkSmtpServer` can resolve with (see the claim about the
probe's totality). -/
theorem mx_fallback_behavior :
    (∀ (dns : DnsOutcome) (probe : String → ProbeOutcome) (email : String)
       (pre post : List String) (h : String) (s : SmtpResult),
       isValidFormat email = true →
       getMxRecords dns = pre ++ h :: post →
       (∀ x ∈ pre, notValidOutcome (probe x)) →
       probe h = .ok s → s.isValid = true →
       verifyEmail dns probe email =
         ⟨email, true, "valid", "Email существует", some h, some (pre ++ h :: post)⟩ ∧
       (∀ probe2 : String → ProbeOutcome,
         (∀ x ∈ pre, probe2 x = probe x) → probe2 h = probe h →
         verifyEmail dns probe2 email = verifyEmail dns probe email)) ∧
    (∀ (dns : DnsOutcome) (probe : String → ProbeOutcome) (email : String)
       (h : String) (s : SmtpResult),
       isValidFormat email = true →
       (∀ x ∈ getMxRecords dns, notValidOutcome (probe x)) →
       (∀ x ∈ getMxRecords dns, ∀ s2, probe x = .ok s2 →
          s2.message ≠ "" ∧ s2.category ≠ "") →
       lastOk probe (getMxRecords dns) = some (h, s) →
       (verifyEmail dns probe email).category = s.category ∧
       (verifyEmail dns probe email).message = s.message ∧
       (verifyEmail dns probe email).smtpServer = some h) := by
  constructor
  · intro dns probe email pre post h s hfmt hmx hpre hok hv
    have hcons : ∃ m ms, pre ++ h :: post = m :: ms := by
      cases pre with
      | nil => exact ⟨h, post, rfl⟩
      | cons p ps => exact ⟨p, ps ++ h :: post, by simp⟩
    obtain ⟨m, ms, hms⟩ := hcons
    have main : ∀ probeA : String → ProbeOutcome,
        (∀ x ∈ pre, notValidOutcome (probeA x)) → probeA h = .ok s →
        verifyEmail dns probeA email =
          ⟨email, true, "valid", "Email существует", some h, some (pre ++ h :: post)⟩ := by
      intro probeA hpreA hokA
      rw [verifyEmail_loop dns probeA email hfmt m ms (by rw [hmx, hms]), ← hms]
      rw [smtpLoop_valid_win probeA pre h post _ s hpreA hokA hv]
      rw [if_neg (fun hh => by simp at hh)]
    refine ⟨main probe hpre hok, ?_⟩
    intro probe2 hagree hh
    rw [main probe hpre hok, main probe2
      (fun x hx => by rw [hagree x hx]; exact hpre x hx) (by rw [hh]; exact hok)]
  · intro dns probe email h s hfmt hnv hmsg hlast
    have hne : getMxRecords dns ≠ [] := by
      intro hemp
      rw [hemp] at hlast
      simp [lastOk] at hlast
    obtain ⟨m, ms, hmx⟩ : ∃ m ms, getMxRecords dns = m :: ms := by
      cases hg : getMxRecords dns with
      | nil => exact absurd hg hne
      | cons a as => exact ⟨a, as, rfl⟩
    obtain ⟨hmem, hph⟩ := lastOk_mem probe (getMxRecords dns) h s hlast
    obtain ⟨hm1, hc1⟩ := hmsg h hmem s hph
    rw [verifyEmail_loop dns probe email hfmt m ms hmx, ← hmx]
    rw [smtpLoop_all_nonvalid probe (getMxRecords dns) _ hnv, hlast]
    rw [if_neg (by simpa using hm1)]
    refine ⟨?_, rfl, rfl⟩
    simp [hc1]

/-- The DNS outcome used by the C4 witness: two records, priorities 10, 20. -/
def dnsTwo : DnsOutcome := .records [⟨10, "mx1"⟩, ⟨20, "mx2"⟩]

/-- The probe of the C4 witness for part (i): host 1 answers 550, host 2
accepts the recipient. -/
def probeValidSecond : String → ProbeOutcome := fun x =>
  if x = "mx2" then .ok validResult else .ok notExistingResult

/-- The probe of the C4 witness for part (ii): every host answers 550. -/
def probeAllNotExisting : String → ProbeOutcome := fun _ => .ok notExistingResult

/-- Witness for `mx_fallback_behavior`: both parts discharged at concrete
inputs — a 550 on the first MX does not stop the loop, and an all-550 pair
ends with the latest `not_existing` verdict. -/
theorem mx_fallback_behavior_w :
    verifyEmail dnsTwo probeValidSecond "a@b.cc" =
      ⟨"a@b.cc", true, "valid", "Email существует", some "mx2", some (["mx1"] ++ "mx2" :: [])⟩ ∧
    (verifyEmail dnsTwo probeAllNotExisting "a@b.cc").category = notExistingResult.category ∧
    (verifyEmail dnsTwo probeAllNotExisting "a@b.cc").message = notExistingResult.message ∧
    (verifyEmail dnsTwo probeAllNotExisting "a@b.cc").smtpServer = some "mx2" :=
  ⟨(mx_fallback_behavior.1 dnsTwo probeValidSecond "a@b.cc" ["mx1"] [] "mx2" validResult
      (by decide) (by decide)
      (by intro x hx; simp only [List.mem_singleton] at hx; subst hx; exact rfl)
      (by decide) (by decide)).1,
   mx_fallback_behavior.2 dnsTwo probeAllNotExisting "a@b.cc" "mx2" notExistingResult
      (by decide)
      (by intro x hx; exact rfl)
      (by
        intro x hx s2 hs2
        have h2 : ProbeOutcome.ok notExistingResult = ProbeOutcome.ok s2 := hs2
        injection h2 with h3
        subst h3
        exact ⟨by decide, by decide⟩)
      (by decide)⟩

/-! ### The line dispatcher's code tests, characterised -/

theorem hasPref_parse (a b c : Char) (line : List Char)
    (h : hasPrefCh [a, b, c] line = true) :
    ∃ rest, line = a :: b :: c :: rest := by
  match line with
  | [] => simp [hasPrefCh] at h
  | x :: xs =>
    match xs with
    | [] => simp [hasPrefCh] at h
    | y :: ys =>
      match ys with
      | [] => simp [hasPrefCh] at h
      | z :: zs =>
        simp only [hasPrefCh, Bool.and_eq_true, beq_iff_eq, and_true] at h
        obtain ⟨hx, hy, hz⟩ := h
        exact ⟨zs, by rw [hx, hy, hz]⟩

theorem hasPref220_code (line : List Char) (h : hasPrefCh "220".data line = true) :
    parseCode line = some 220 := by
  obtain ⟨rest, rfl⟩ := hasPref_parse '2' '2' '0' line h
  rfl

theorem hasPref250_code (line : List Char) (h : hasPrefCh "250".data line = true) :
    parseCode line = some 250 := by
  obtain ⟨rest, rfl⟩ := hasPref_parse '2' '5' '0' line h
  rfl

/-! ### Claim C5 — the reply-line dispatch -/

/-- C5 counterexample: a conversation is driven to the point where `RCPT TO`
has been answered (the spec's state AWAIT_250_RCPT), and the server's reply
line begins `250` and contains the token `RCPT` — but also the token `HELO`,
so the dispatcher takes the `HELO` branch (sending `MAIL FROM` again) instead
of resolving `valid`; the probe then times out.  The claim's `valid` rule
therefore does not hold for every 250/RCPT line: token containment, not
conversation state, selects the branch. -/
theorem rcpt_line_with_helo_token_cex :
    checkSmtpServer "u@d.cc"
      [.connect, .dataEv "220 mx\r\n".data, .dataEv "250 HELO ok\r\n".data,
       .dataEv "250 MAIL ok\r\n".data, .dataEv "250 RCPT ok HELO\r\n".data]
      = timeoutResult ∧
    hasPrefCh "250".data "250 RCPT ok HELO".data = true ∧
    containsTok "250 RCPT ok HELO".data "RCPT".data = true := by
  refine ⟨?_, ?_, ?_⟩ <;> decide

/-- C5 as amended: for every complete reply line, parsed code 550/551
resolves `not_existing`, 552/553 resolves `mailbox_error`, 421/450 resolves
`temporary_error`, any other 500-599 code resolves `smtp_error` with the
server's line attached, and a line beginning `250` that contains the token
`RCPT` — and contains neither `HELO` nor `MAIL` — resolves `valid` (the
dispatcher is stateless, so the token tests alone select the branch). -/
theorem smtp_line_dispatch :
    (∀ (email : String) (line : List Char) (c : Int),
       parseCode line = some c → c = 550 ∨ c = 551 →
       handleLine email line = .resolve notExistingResult) ∧
    (∀ (email : String) (line : List Char) (c : Int),
       parseCode line = some c → c = 552 ∨ c = 553 →
       handleLine email line = .resolve mailboxErrorResult) ∧
    (∀ (email : String) (line : List Char) (c : Int),
       parseCode line = some c → c = 421 ∨ c = 450 →
       handleLine email line = .resolve temporaryErrorResult) ∧
    (∀ (email : String) (line : List Char) (c : Int),
       parseCode line = some c → 500 ≤ c → c ≤ 599 →
       c ≠ 550 → c ≠ 551 → c ≠ 552 → c ≠ 553 →
       handleLine email line = .resolve (smtpErrorResult line)) ∧
    (∀ (email : String) (line : List Char),
       hasPrefCh "250".data line = true →
       containsTok line "RCPT".data = true →
       containsTok line "HELO".data = false →
       containsTok line "MAIL".data = false →
       handleLine email line = .resolve validResult) := by
  have h220f : ∀ (line : List Char) (c : Int), parseCode line = some c → c ≠ 220 →
      hasPrefCh "220".data line = false := by
    intro line c hc hne
    cases h : hasPrefCh "220".data line
    · rfl
    · rw [hasPref220_code line h] at hc
      have hx : (220 : Int) = c := by injection hc
      exact absurd hx.symm hne
  have h250f : ∀ (line : List Char) (c : Int), parseCode line = some c → c ≠ 250 →
      hasPrefCh "250".data line = false := by
    intro line c hc hne
    cases h : hasPrefCh "250".data line
    · rfl
    · rw [hasPref250_code line h] at hc
      have hx : (250 : Int) = c := by injection hc
      exact absurd hx.symm hne
  refine ⟨?_, ?_, ?_, ?_, ?_⟩
  · intro email line c hc hcc
    have ha := h220f line c hc (by omega)
    have hb := h250f line c hc (by omega)
    rcases hcc with rfl | rfl <;> simp [handleLine, ha, hb, hc]
  · intro email line c hc hcc
    have ha := h220f line c hc (by omega)
    have hb := h250f line c hc (by omega)
    rcases hcc with rfl | rfl <;> simp [handleLine, ha, hb, hc]
  · intro email line c hc hcc
    have ha := h220f line c hc (by omega)
    have hb := h250f line c hc (by omega)
    rcases hcc with rfl | rfl <;> simp [handleLine, ha, hb, hc]
  · intro email line c hc hge hle h550 h551 h552 h553
    have ha := h220f line c hc (by omega)
    have hb := h250f line c hc (by omega)
    have g1 : decide ((500 : Int) ≤ c) = true := decide_eq_true hge
    have g2 : decide (c ≤ (599 : Int)) = true := decide_eq_true hle
    simp [handleLine, ha, hb, hc, h550, h551, h552, h553, g1, g2]
    intro hcc
    rcases hcc with rfl | rfl <;> omega
  · intro email line h250 hrcpt hhelo hmail
    have h220 : hasPrefCh "220".data line = false := by
      cases h : hasPrefCh "220".data line
      · rfl
      · have e1 := hasPref220_code line h
        have e2 := hasPref250_code line h250
        rw [e1] at e2
        exact absurd (by injection e2) (by omega)
    simp [handleLine, h220, h250, hrcpt, hhelo, hmail]

/-- Witness for `smtp_line_dispatch`: each dispatch rule discharged on a
concrete reply line. -/
theorem smtp_line_dispatch_w :
    handleLine "u@d.cc" "550 5.1.1 User unknown".data = .resolve notExistingResult ∧
    handleLine "u@d.cc" "552 full".data = .resolve mailboxErrorResult ∧
    handleLine "u@d.cc" "450 later".data = .resolve temporaryErrorResult ∧
    handleLine "u@d.cc" "554 rejected".data = .resolve (smtpErrorResult "554 rejected".data) ∧
    handleLine "u@d.cc" "250 2.1.5 RCPT ok".data = .resolve validResult :=
  ⟨smtp_line_dispatch.1 "u@d.cc" "550 5.1.1 User unknown".data 550 (by decide) (by decide),
   smtp_line_dispatch.2.1 "u@d.cc" "552 full".data 552 (by decide) (by decide),
   smtp_line_dispatch.2.2.1 "u@d.cc" "450 later".data 450 (by decide) (by decide),
   smtp_line_dispatch.2.2.2.1 "u@d.cc" "554 rejected".data 554 (by decide) (by decide)
     (by decide) (by decide) (by decide) (by decide) (by decide),
   smtp_line_dispatch.2.2.2.2 "u@d.cc" "250 2.1.5 RCPT ok".data (by decide) (by decide)
     (by decide) (by decide)⟩

/-! ### Claim C10 — the probe always resolves, with a well-formed result -/

/-- The seven categories the probe's contract allows (spec section 4.3). -/
def probeCategories : List String :=
  ["valid", "not_existing", "mailbox_error", "temporary_error", "smtp_error",
   "smtp_timeout", "connection_error"]

/-- A well-formed probe result: a contract category, and a message that is
neither empty nor the verifier's fallback text. -/
def goodRes (r : SmtpResult) : Prop :=
  r.category ∈ probeCategories ∧ r.message ≠ "" ∧
    r.message ≠ "Все SMTP серверы недоступны"

theorem prefixed_message_good (p : String) (hp : p.data.head? = some 'О') (m : String) :
    (p ++ m) ≠ "" ∧ (p ++ m) ≠ "Все SMTP серверы недоступны" := by
  constructor
  · intro hq
    have h1 := congrArg String.data hq
    rw [String.data_append] at h1
    have h2 := congrArg List.head? h1
    rw [List.head?_append_of_ne_nil _ (by intro hnil; rw [hnil] at hp; exact absurd hp (by decide))]
      at h2
    rw [hp] at h2
    exact absurd h2 (by decide)
  · intro hq
    have h1 := congrArg String.data hq
    rw [String.data_append] at h1
    have h2 := congrArg List.head? h1
    rw [List.head?_append_of_ne_nil _ (by intro hnil; rw [hnil] at hp; exact absurd hp (by decide))]
      at h2
    rw [hp] at h2
    exact absurd h2 (by decide)

theorem handleLine_resolve_good (email : String) (line : List Char) (r : SmtpResult)
    (h : handleLine email line = .resolve r) : goodRes r := by
  simp only [handleLine] at h
  split at h
  · exact absurd h (by simp)
  split at h
  · exact absurd h (by simp)
  split at h
  · exact absurd h (by simp)
  split at h
  · injection h with h2
    subst h2
    exact ⟨by decide, by decide, by decide⟩
  split at h
  · injection h with h2
    subst h2
    exact ⟨by decide, by decide, by decide⟩
  split at h
  · injection h with h2
    subst h2
    exact ⟨by decide, by decide, by decide⟩
  split at h
  · injection h with h2
    subst h2
    exact ⟨by decide, by decide, by decide⟩
  split at h
  · injection h with h2
    subst h2
    have := prefixed_message_good "Ошибка сервера: " (by decide) (String.mk line)
    exact ⟨(by decide : ("smtp_error" : String) ∈ probeCategories), this.1, this.2⟩
  · exact absurd h (by simp)

/-- The resolution invariant of one probe: whatever is resolved is good. -/
def goodStateP (st : ProbeState) : Prop :=
  ∀ r, st.resolved = some r → goodRes r

theorem processLines_good (email : String) :
    ∀ (lines : List (List Char)) (st : ProbeState), goodStateP st →
      goodStateP (processLines email st lines) := by
  intro lines
  induction lines with
  | nil => intro st h; exact h
  | cons line rest ih =>
    intro st h
    rw [processLines]
    cases hl : handleLine email line with
    | send c => exact ih _ (fun r hr => h r hr)
    | skip => exact ih _ h
    | resolve r2 =>
      intro r hr
      have hr2 : some r2 = some r := hr
      injection hr2 with hr3
      subst hr3
      exact handleLine_resolve_good email line _ hl

theorem stepEvent_good (email : String) (st : ProbeState) (ev : SockEvent)
    (h : goodStateP st) : goodStateP (stepEvent email st ev) := by
  cases ev with
  | connect =>
    by_cases hr : st.resolved.isSome
    · simpa [stepEvent, hr] using h
    · simp only [stepEvent, hr, if_neg]
      intro r hrr
      exact h r hrr
  | dataEv chunk =>
    by_cases hr : st.resolved.isSome
    · simpa [stepEvent, hr] using h
    · simp only [stepEvent, hr, if_neg]
      exact processLines_good email _ _ (fun r hrr => h r hrr)
  | errorEv m =>
    by_cases hr : st.resolved.isSome
    · simpa [stepEvent, hr] using h
    · simp only [stepEvent, hr, if_neg]
      intro r hrr
      have hr2 : some (connectionErrorResult m) = some r := hrr
      injection hr2 with hr3
      subst hr3
      have := prefixed_message_good "Ошибка подключения: " (by decide) m
      exact ⟨(by decide : ("connection_error" : String) ∈ probeCategories), this.1, this.2⟩
  | endEv => exact h

theorem checkSmtpServer_good (email : String) (events : List SockEvent) :
    goodRes (checkSmtpServer email events) := by
  have hfold : ∀ (evs : List SockEvent) (st : ProbeState), goodStateP st →
      goodStateP (evs.foldl (stepEvent email) st) := by
    intro evs
    induction evs with
    | nil => intro st h; exact h
    | cons ev rest ih =>
      intro st h
      rw [List.foldl_cons]
      exact ih _ (stepEvent_good email st ev h)
  have hinv := hfold events ⟨[], [], none⟩ (fun r hr => by simp at hr)
  unfold checkSmtpServer
  cases hres : (events.foldl (stepEvent email) ⟨[], [], none⟩).resolved with
  | none => exact ⟨by decide, by decide, by decide⟩
  | some r => exact hinv r hres

theorem smtpLoop_allok_message (probe : String → ProbeOutcome)
    (hok : ∀ x, ∃ s, probe x = .ok s) :
    ∀ (ms : List String) (m : String) (r : VerifyResult),
      (smtpLoop probe (m :: ms) r).message = "Email существует" ∨
      ∃ x s, probe x = .ok s ∧ (smtpLoop probe (m :: ms) r).message = s.message := by
  intro ms
  induction ms with
  | nil =>
    intro m r
    obtain ⟨s, hs⟩ := hok m
    simp only [smtpLoop, hs]
    cases hv : s.isValid
    · rw [if_neg (by simp [hv])]
      exact Or.inr ⟨m, s, hs, rfl⟩
    · rw [if_pos (by simp [hv])]
      exact Or.inl rfl
  | cons y ys ih =>
    intro m r
    obtain ⟨s, hs⟩ := hok m
    simp only [smtpLoop, hs]
    cases hv : s.isValid
    · rw [if_neg (by simp [hv])]
      exact ih y _
    · rw [if_pos (by simp [hv])]
      exact Or.inl rfl

/-- C10: a probe run — any host, any address, any socket-event sequence —
always resolves (the embedding's `checkSmtpServer` is total and the timer
backstops unresolved runs) with one of the seven contract categories and a
non-empty message; consequently a verifier whose probes are such resolutions
never emits an empty message, and its final fallback verdict
("Все SMTP серверы недоступны", the `smtp_timeout` taken only when no host
set a message) is unreachable. -/
theorem probe_total_resolution :
    (∀ (email : String) (events : List SockEvent),
       (checkSmtpServer email events).category ∈ probeCategories ∧
       (checkSmtpServer email events).message ≠ "") ∧
    (∀ (email : String) (dns : DnsOutcome) (evs : String → List SockEvent),
       (verifyEmail dns (fun x => .ok (checkSmtpServer email (evs x))) email).message ≠ "" ∧
       (verifyEmail dns (fun x => .ok (checkSmtpServer email (evs x))) email).message
         ≠ "Все SMTP серверы недоступны") := by
  constructor
  · intro email events
    have := checkSmtpServer_good email events
    exact ⟨this.1, this.2.1⟩
  · intro email dns evs
    have hok : ∀ x, ∃ s, (fun x => ProbeOutcome.ok (checkSmtpServer email (evs x))) x
        = .ok s := fun x => ⟨_, rfl⟩
    have hmsgGood : ∀ x s,
        (fun x => ProbeOutcome.ok (checkSmtpServer email (evs x))) x = .ok s →
        s.message ≠ "" ∧ s.message ≠ "Все SMTP серверы недоступны" := by
      intro x s hx
      have h2 : ProbeOutcome.ok (checkSmtpServer email (evs x)) = ProbeOutcome.ok s := hx
      injection h2 with h3
      subst h3
      exact ⟨(checkSmtpServer_good email (evs x)).2.1, (checkSmtpServer_good email (evs x)).2.2⟩
    by_cases hfmt : isValidFormat email = true
    · cases hmx : getMxRecords dns with
      | nil =>
        have hv : verifyEmail dns (fun x => .ok (checkSmtpServer email (evs x))) email =
            ⟨email, false, "no_mx_records", "MX записи не найдены", none, none⟩ := by
          unfold verifyEmail
          simp [hfmt, hmx]
        rw [hv]
        exact ⟨(by decide : ("MX записи не найдены" : String) ≠ ""),
          (by decide : ("MX записи не найдены" : String) ≠ "Все SMTP серверы недоступны")⟩
      | cons m ms =>
        rw [verifyEmail_loop dns _ email hfmt m ms hmx]
        have hloop := smtpLoop_allok_message _ hok ms m
          ⟨email, false, "invalid", "", none, some (m :: ms)⟩
        have hne : (smtpLoop (fun x => ProbeOutcome.ok (checkSmtpServer email (evs x)))
            (m :: ms) ⟨email, false, "invalid", "", none, some (m :: ms)⟩).message ≠ "" ∧
            (smtpLoop (fun x => ProbeOutcome.ok (checkSmtpServer email (evs x)))
            (m :: ms) ⟨email, false, "invalid", "", none, some (m :: ms)⟩).message
              ≠ "Все SMTP серверы недоступны" := by
          rcases hloop with h | ⟨x, s, hx, h⟩
          · rw [h]
            exact ⟨by decide, by decide⟩
          · rw [h]
            exact hmsgGood x s hx
        rw [if_neg hne.1]
        exact hne
    · have hf : isValidFormat email = false := by
        cases h : isValidFormat email
        · rfl
        · exact absurd h hfmt
      have hv : verifyEmail dns (fun x => .ok (checkSmtpServer email (evs x))) email =
          ⟨email, false, "invalid_format", "Неверный формат email", none, none⟩ := by
        unfold verifyEmail
        simp [hf]
      rw [hv]
      exact ⟨(by decide : ("Неверный формат email" : String) ≠ ""),
        (by decide : ("Неверный формат email" : String) ≠ "Все SMTP серверы недоступны")⟩

/-- Witness for `probe_total_resolution`: a concrete probe run (a refused
connection) and a concrete verifier run over it. -/
theorem probe_total_resolution_w :
    ((checkSmtpServer "a@b.cc" [.errorEv "ECONNREFUSED"]).category ∈ probeCategories ∧
      (checkSmtpServer "a@b.cc" [.errorEv "ECONNREFUSED"]).message ≠ "") ∧
    (verifyEmail dnsTwo
        (fun x => .ok (checkSmtpServer "a@b.cc" ((fun _ => [SockEvent.endEv]) x))) "a@b.cc").message
      ≠ "Все SMTP серверы недоступны" :=
  ⟨probe_total_resolution.1 "a@b.cc" [.errorEv "ECONNREFUSED"],
   (probe_total_resolution.2 "a@b.cc" dnsTwo (fun _ => [SockEvent.endEv])).2⟩
